import Mathlib

/-!
# Verification of the n8n-md-to-docs conversion service

Shallow embedding of the repository.  Two layers are modelled:

* the Markdown-to-document conversion core (Document Model Builder,
  Style Resolver, Remote-Doc Emitter).  Its implementation files
  (services/googleDocs.ts, services/docxConverter.ts) are not part of the
  available sources, so these definitions are modelled from the design
  specification (sections 3, 4.1 to 4.3);
* the HTTP request-handling layer, embedded directly from src/index.ts
  (validation helpers, rate limiting, per-request processing, response
  dispatch).
-/

namespace MdToDocs

/-! ## Part 1: conversion core, modelled from the specification -/

/-- Modelled from the spec: StyleSet of section 3 — a set of boolean or
optional attributes carried by a Run; attributes are independently
combinable (bold and italic simultaneously valid). -/
structure StyleSet where
  bold : Bool := false
  italic : Bool := false
  code : Bool := false
  link : Option String := none
deriving DecidableEq, Repr

/-- The empty style set: plain text. -/
def noStyle : StyleSet := {}

/-- Modelled from the spec: the sequence of inline AST nodes produced by the
external Markdown tokenizer (glossary: text run, emphasis, link; section 4.1
adds inline code spans, hard breaks and unknown inline kinds).  The sequence
and the nested inline children are encoded as one cons-structured type so
every function on it is structurally recursive. -/
inductive Inlines where
  | nil : Inlines
  | text (s : String) (rest : Inlines) : Inlines
  | strong (inner : Inlines) (rest : Inlines) : Inlines
  | em (inner : Inlines) (rest : Inlines) : Inlines
  | codespan (s : String) (rest : Inlines) : Inlines
  | link (url : String) (inner : Inlines) (rest : Inlines) : Inlines
  | br (rest : Inlines) : Inlines
  | unknownInline (s : String) (rest : Inlines) : Inlines
deriving DecidableEq, Repr

/-- Modelled from the spec: the entries of a Markdown list block.  Each item
carries its inline content and a possibly empty nested sub-list (with the
sub-list's ordered flag), followed by its sibling items — the cons encoding
of "list entries, each possibly holding a nested list" of section 4.1. -/
inductive MdItems where
  | nil : MdItems
  | item (content : Inlines) (subOrdered : Bool) (sub : MdItems) (rest : MdItems) : MdItems
deriving DecidableEq, Repr

/-- Modelled from the spec: block-level AST nodes (glossary: paragraph,
heading, list, code; section 4.1 adds unknown block kinds). -/
inductive Block where
  | heading (level : Nat) (inl : Inlines) : Block
  | para (inl : Inlines) : Block
  | codeBlock (lang : Option String) (text : String) : Block
  | listBlock (ordered : Bool) (items : MdItems) : Block
  | unknownBlock (text : String) : Block
deriving DecidableEq, Repr

/-- Modelled from the spec: an entry of an element's run sequence — either a
Run (contiguous styled text span, section 3) or an explicit LineBreak entry
kept inside the run sequence for hard line breaks (section 4.1). -/
inductive RunEntry where
  | run (text : String) (style : StyleSet) : RunEntry
  | lineBreak : RunEntry
deriving DecidableEq, Repr

/-- Modelled from the spec: DocumentElement of section 3 — the tagged variant
over headings, paragraphs, list items with depth, code blocks and line
breaks produced by the Document Model Builder. -/
inductive DocumentElement where
  | heading (level : Nat) (runs : List RunEntry) : DocumentElement
  | paragraph (runs : List RunEntry) : DocumentElement
  | listItem (depth : Nat) (ordered : Bool) (runs : List RunEntry) : DocumentElement
  | codeBlock (language : Option String) (rawText : String) : DocumentElement
  | lineBreak : DocumentElement
deriving DecidableEq, Repr

/-- Modelled from the spec: inline resolution of the Document Model Builder
and Style Resolver (sections 4.1, 4.2).  Text nodes, emphasis and strong
nodes, inline code spans and links are folded into Runs; nested emphasis
composes the StyleSet by union (the surrounding context style is kept and
the new attribute is switched on); hard breaks become LineBreak entries;
unrecognized inline kinds are degraded to plain-text Runs carrying their
text, never dropped. -/
def resolveInlines (s : StyleSet) : Inlines → List RunEntry
  | .nil => []
  | .text t rest => RunEntry.run t s :: resolveInlines s rest
  | .strong inner rest =>
      resolveInlines { s with bold := true } inner ++ resolveInlines s rest
  | .em inner rest =>
      resolveInlines { s with italic := true } inner ++ resolveInlines s rest
  | .codespan t rest => RunEntry.run t { s with code := true } :: resolveInlines s rest
  | .link url inner rest =>
      resolveInlines { s with link := some url } inner ++ resolveInlines s rest
  | .br rest => RunEntry.lineBreak :: resolveInlines s rest
  | .unknownInline t rest => RunEntry.run t s :: resolveInlines s rest

/-- Modelled from the spec: list handling of the Document Model Builder
(section 4.1) — one ListItem per list entry, nested sub-lists recursively
flattened into additional ListItem elements with incremented depth,
interleaved in document order. -/
def buildItems (ordered : Bool) (depth : Nat) : MdItems → List DocumentElement
  | .nil => []
  | .item content subOrd sub rest =>
      DocumentElement.listItem depth ordered (resolveInlines noStyle content)
        :: (buildItems subOrd (depth + 1) sub ++ buildItems ordered depth rest)

/-- Modelled from the spec: the Document Model Builder contract of section
4.1 — walks the block nodes in document order and produces the ordered
DocumentElement sequence; unrecognized block kinds are degraded to a
paragraph holding one plain-text Run carrying their text. -/
def build : List Block → List DocumentElement
  | [] => []
  | Block.heading lv inl :: rest =>
      DocumentElement.heading lv (resolveInlines noStyle inl) :: build rest
  | Block.para inl :: rest =>
      DocumentElement.paragraph (resolveInlines noStyle inl) :: build rest
  | Block.codeBlock lang t :: rest =>
      DocumentElement.codeBlock lang t :: build rest
  | Block.listBlock ord items :: rest => buildItems ord 0 items ++ build rest
  | Block.unknownBlock t :: rest =>
      DocumentElement.paragraph [RunEntry.run t noStyle] :: build rest

/-- Visible text of one run entry (a LineBreak renders as a newline). -/
def runEntryText : RunEntry → String
  | .run t _ => t
  | .lineBreak => "\n"

/-- Concatenation of the visible texts of a run sequence. -/
def runsText : List RunEntry → String
  | [] => ""
  | r :: rs => runEntryText r ++ runsText rs

/-- Visible text content of an inline AST sequence (reference rendering for
the no-content-loss property; unknown inline nodes contribute their text). -/
def inlinesText : Inlines → String
  | .nil => ""
  | .text t rest => t ++ inlinesText rest
  | .strong inner rest => inlinesText inner ++ inlinesText rest
  | .em inner rest => inlinesText inner ++ inlinesText rest
  | .codespan t rest => t ++ inlinesText rest
  | .link _ inner rest => inlinesText inner ++ inlinesText rest
  | .br rest => "\n" ++ inlinesText rest
  | .unknownInline t rest => t ++ inlinesText rest

/-- Visible text content of a Markdown list (reference rendering). -/
def itemsText : MdItems → String
  | .nil => ""
  | .item content _ sub rest => inlinesText content ++ itemsText sub ++ itemsText rest

/-- Visible text content of a block AST sequence (reference rendering;
unknown blocks contribute their text). -/
def blocksText : List Block → String
  | [] => ""
  | Block.heading _ inl :: rest => inlinesText inl ++ blocksText rest
  | Block.para inl :: rest => inlinesText inl ++ blocksText rest
  | Block.codeBlock _ t :: rest => t ++ blocksText rest
  | Block.listBlock _ items :: rest => itemsText items ++ blocksText rest
  | Block.unknownBlock t :: rest => t ++ blocksText rest

/-- Visible text of one document element. -/
def elementText : DocumentElement → String
  | .heading _ rs => runsText rs
  | .paragraph rs => runsText rs
  | .listItem _ _ rs => runsText rs
  | .codeBlock _ t => t
  | .lineBreak => "\n"

/-- Concatenation of the visible texts of a DocumentElement sequence. -/
def elementsText : List DocumentElement → String
  | [] => ""
  | e :: es => elementText e ++ elementsText es

/-- The depths of the ListItem elements of a sequence, in document order. -/
def listDepths : List DocumentElement → List Nat
  | [] => []
  | DocumentElement.listItem d _ _ :: es => d :: listDepths es
  | _ :: es => listDepths es

/-- Modelled from the spec: RemoteOperation of section 3 — the tagged
variant of operations submitted to the remote rich-document API. -/
inductive RemoteOperation where
  | insertText (atIndex : Nat) (text : String) : RemoteOperation
  | updateStyle (startIndex endIndex : Nat) (style : StyleSet) : RemoteOperation
  | insertParagraphBullet (startIndex endIndex : Nat) (depth : Nat) (ordered : Bool) :
      RemoteOperation
deriving DecidableEq, Repr

/-- The run sequence whose text an element inserts into the remote
document: a code block inserts its raw text as one code-styled run, a
LineBreak element inserts a newline. -/
def elemRuns : DocumentElement → List RunEntry
  | .heading _ rs => rs
  | .paragraph rs => rs
  | .listItem _ _ rs => rs
  | .codeBlock _ t => [RunEntry.run t { noStyle with code := true }]
  | .lineBreak => [RunEntry.lineBreak]

/-- The full text one element inserts (concatenation of its run texts, with
LineBreak entries mapped to a literal line-break character). -/
def elementFullText (e : DocumentElement) : String := runsText (elemRuns e)

/-- Modelled from the spec: the per-run UpdateStyle operations of the
Remote-Doc Emitter (section 4.3) — ranges are relative to the cursor
recorded before the element's text insertion plus each run's offset within
the inserted text; zero-length ranges are not emitted. -/
def styleOps (base off : Nat) : List RunEntry → List RemoteOperation
  | [] => []
  | RunEntry.run t s :: rs =>
      if t.length = 0 then styleOps base (off + t.length) rs
      else RemoteOperation.updateStyle (base + off) (base + off + t.length) s
        :: styleOps base (off + t.length) rs
  | RunEntry.lineBreak :: rs => styleOps base (off + 1) rs

/-- Modelled from the spec: the list-item bullet operation of the
Remote-Doc Emitter (section 4.3) — a list item gets one
InsertParagraphBullet over its inserted range, carrying the element's depth
and ordered flag; other elements get none. -/
def bulletOps (cursor len : Nat) : DocumentElement → List RemoteOperation
  | .listItem depth ordered _ =>
      [RemoteOperation.insertParagraphBullet cursor (cursor + len) depth ordered]
  | _ => []

/-- Modelled from the spec: the operations the Remote-Doc Emitter produces
for one element at a given cursor (section 4.3) — first one InsertText
with the element's full text, then the UpdateStyle operations over the run
sub-ranges, then the bullet operation; an element with empty text emits
nothing. -/
def emitElem (cursor : Nat) (e : DocumentElement) : List RemoteOperation :=
  let t := elementFullText e
  if t.length = 0 then []
  else
    RemoteOperation.insertText cursor t
      :: (styleOps cursor 0 (elemRuns e) ++ bulletOps cursor t.length e)

/-- Modelled from the spec: the emitter walk over the element sequence — a
single monotonically increasing cursor threaded through the elements,
advanced after each element by the length of the text it inserted. -/
def emitFrom (cursor : Nat) : List DocumentElement → List RemoteOperation
  | [] => []
  | e :: es => emitElem cursor e ++ emitFrom (cursor + (elementFullText e).length) es

/-- Modelled from the spec: the Remote-Doc Emitter contract of section 4.3,
with the cursor starting at the document's initial insertion point, index
0. -/
def emit (es : List DocumentElement) : List RemoteOperation := emitFrom 0 es

/-- Index-bookkeeping checker for an operation sequence: threading the
cumulative inserted length, every InsertText is placed exactly at the
cumulative inserted length so far and inserts nonempty text, and every
range-addressed operation's range lies within the part of the document
inserted so far. -/
def OpsWithin : Nat → List RemoteOperation → Prop
  | _, [] => True
  | len, RemoteOperation.insertText i t :: ops =>
      i = len ∧ 0 < t.length ∧ OpsWithin (len + t.length) ops
  | len, RemoteOperation.updateStyle a b _ :: ops =>
      a ≤ b ∧ b ≤ len ∧ OpsWithin len ops
  | len, RemoteOperation.insertParagraphBullet a b _ _ :: ops =>
      a ≤ b ∧ b ≤ len ∧ OpsWithin len ops

/-- Total length of the texts inserted by a sequence of operations. -/
def insertedLen : List RemoteOperation → Nat
  | [] => 0
  | RemoteOperation.insertText _ t :: ops => t.length + insertedLen ops
  | _ :: ops => insertedLen ops

/-- The insertion indices of the InsertText operations, in order. -/
def insertIndices : List RemoteOperation → List Nat
  | [] => []
  | RemoteOperation.insertText i _ :: ops => i :: insertIndices ops
  | _ :: ops => insertIndices ops

/-- Combined length of the visible texts of a run sequence. -/
def runsLen : List RunEntry → Nat
  | [] => 0
  | RunEntry.run t _ :: rs => t.length + runsLen rs
  | RunEntry.lineBreak :: rs => 1 + runsLen rs

/-! ## Part 2: HTTP request-handling layer, embedded from src/index.ts -/

/-- One entry of the in-memory rate-limit map of src/index.ts (a request
count and the window reset time in milliseconds). -/
structure RateData where
  count : Nat
  resetTime : Nat
deriving DecidableEq, Repr

/-- The rate-limit map, keyed by client IP (Map.get returns the entry or
nothing). -/
def RateLimitMap : Type := String → Option RateData

/-- RATE_LIMIT_WINDOW of src/index.ts: 15 minutes in milliseconds. -/
def RATE_LIMIT_WINDOW : Nat := 15 * 60 * 1000

/-- RATE_LIMIT_MAX_REQUESTS of src/index.ts: 100 requests per window. -/
def RATE_LIMIT_MAX_REQUESTS : Nat := 100

/-- Map.set on the rate-limit map. -/
def mapSet (m : RateLimitMap) (ip : String) (d : RateData) : RateLimitMap :=
  fun k => if k = ip then some d else m k

/-- Outcome of the rateLimit middleware for one request: the request is
forwarded to the handler (next called) or rejected with HTTP 429. -/
inductive RLOutcome where
  | forward : RLOutcome
  | reject429 : RLOutcome
deriving DecidableEq, Repr

/-- Whether the middleware forwarded the request. -/
def RLOutcome.isForward : RLOutcome → Bool
  | .forward => true
  | .reject429 => false

/-- The rateLimit middleware of src/index.ts for a single request: look up
the client IP; a fresh IP or one whose reset time has passed gets a new
entry with count 1 and resetTime now + RATE_LIMIT_WINDOW and is forwarded;
inside the window, a count at or above RATE_LIMIT_MAX_REQUESTS is rejected
with status 429 (map unchanged), otherwise the count is incremented and the
request forwarded. -/
def rateLimitStep (m : RateLimitMap) (ip : String) (now : Nat) : RLOutcome × RateLimitMap :=
  match m ip with
  | some d =>
      if d.resetTime < now then
        (RLOutcome.forward, mapSet m ip ⟨1, now + RATE_LIMIT_WINDOW⟩)
      else if RATE_LIMIT_MAX_REQUESTS ≤ d.count then
        (RLOutcome.reject429, m)
      else
        (RLOutcome.forward, mapSet m ip ⟨d.count + 1, d.resetTime⟩)
  | none => (RLOutcome.forward, mapSet m ip ⟨1, now + RATE_LIMIT_WINDOW⟩)

/-- A sequence of requests from one IP at the given times, run through the
rateLimit middleware, threading the map. -/
def runRateLimit (m : RateLimitMap) (ip : String) : List Nat → List RLOutcome
  | [] => []
  | t :: ts =>
      let step := rateLimitStep m ip t
      step.1 :: runRateLimit step.2 ip ts

/-- Number of forwarded requests in a middleware outcome trace. -/
def countForwards : List RLOutcome → Nat
  | [] => 0
  | o :: os => (if o.isForward then 1 else 0) + countForwards os

/-- validateMarkdownContent of src/index.ts: the content must be present
and truthy (a nonempty string) and at most 1,000,000 characters long. -/
def validateMarkdownContent (content : Option String) : Bool :=
  match content with
  | none => false
  | some c =>
      if c = "" then false
      else if 1000000 < c.length then false
      else true

/-- A character matched by the dangerous-file-name-character class of
src/index.ts (angle brackets, colon, quote, slashes, pipe, question mark,
asterisk, or a control character in the 0x00 to 0x1f range). -/
def isDangerousFileChar (c : Char) : Bool :=
  c = '<' || c = '>' || c = ':' || c = '"' || c = '/' || c = '\\' ||
    c = '|' || c = '?' || c = '*' || decide (c.toNat ≤ 0x1f)

/-- validateFileName of src/index.ts: nonempty, at most 255 characters, and
free of dangerous characters. -/
def validateFileName (fileName : String) : Bool :=
  if fileName = "" then false
  else if 255 < fileName.length then false
  else !fileName.data.any isDangerousFileChar

/-- A character matched by the token character class [a-zA-Z0-9._-] of
src/index.ts. -/
def isValidTokenChar (c : Char) : Bool :=
  (decide ('a' ≤ c) && decide (c ≤ 'z')) ||
    (decide ('A' ≤ c) && decide (c ≤ 'Z')) ||
    (decide ('0' ≤ c) && decide (c ≤ '9')) ||
    c = '.' || c = '_' || c = '-'

/-- validateAccessToken of src/index.ts: nonempty, length between 100 and
2048 inclusive, and every character in [a-zA-Z0-9._-]. -/
def validateAccessToken (token : String) : Bool :=
  if token = "" then false
  else if token.length < 100 || 2048 < token.length then false
  else token.data.all isValidTokenChar

/-- JavaScript String.split on a single-space separator, on the character
list: splits at every space, keeping empty chunks. -/
def splitChars : List Char → List (List Char)
  | [] => [[]]
  | c :: cs =>
      let rest := splitChars cs
      if c = ' ' then [] :: rest
      else
        match rest with
        | [] => [[c]]
        | r :: rs => (c :: r) :: rs

/-- authHeader.split of src/index.ts on the space separator, as strings. -/
def jsSplitSpace (s : String) : List String :=
  (splitChars s.data).map fun l => String.mk l

/-- The access token the handler extracts from an authorization header:
element 1 of the space-split header (empty when absent). -/
def tokenOf : Option String → String
  | none => ""
  | some h => ((jsSplitSpace h).get? 1).getD ""

/-- Whether the header string starts with the given prefix (JavaScript
String.startsWith), on the character lists. -/
def strStartsWith (s p : String) : Bool :=
  p.data.isPrefixOf s.data

/-- MarkdownRequest of src/index.ts: the per-request body fields the
handler reads. -/
structure MarkdownRequest where
  output : Option String
  fileName : Option String
  webhookUrl : Option String
  executionMode : Option String
deriving DecidableEq, Repr

/-- request.fileName with the JavaScript falsy-default applied: a missing or
empty field defaults to the fixed display name. -/
def defaultedFileName : Option String → String
  | none => "Converted from Markdown"
  | some s => if s = "" then "Converted from Markdown" else s

/-- Modelled from the spec: the outcome of the external
convertMarkdownToGoogleDoc collaborator (services/googleDocs.ts is not
among the available sources) — success with a result status and document
identifier and link (section 6), or failure carrying the remote error's
message and status when present (section 7). -/
inductive ConvOutcome where
  | success (status : Nat) (documentId : String) (documentUrl : String) : ConvOutcome
  | failure (message : Option String) (status : Option Nat) : ConvOutcome
deriving DecidableEq, Repr

/-- The per-request result value the handler of src/index.ts produces: a
GoogleDocResponse enriched with the request's webhook fields, or an
ErrorResponse with error text, optional details and a status code. -/
inductive PerResult where
  | ok (status : Nat) (documentId : String) (documentUrl : String)
      (webhookUrl : Option String) (executionMode : Option String) : PerResult
  | err (error : String) (details : Option String) (status : Nat) : PerResult
deriving DecidableEq, Repr

/-- The status field of a per-request result. -/
def PerResult.status : PerResult → Nat
  | .ok s _ _ _ _ => s
  | .err _ _ s => s

/-- Whether a per-request result is an error response. -/
def PerResult.isErr : PerResult → Bool
  | .ok _ _ _ _ _ => false
  | .err _ _ _ => true

/-- error.status with the JavaScript fallback (error.status or 500): a
missing or zero (falsy) status becomes 500. -/
def statusOrDefault : Option Nat → Nat
  | none => 500
  | some s => if s = 0 then 500 else s

/-- The per-request mapper of the POST handler of src/index.ts (the body of
requests.map): validate the markdown content, then the file name, then the
authorization header shape, then the extracted token format, and only then
invoke the conversion; a conversion failure is mapped to an ErrorResponse
whose details carry the remote message outside production and a generic
string in production, and whose status is the remote status or 500. -/
def processRequest (production : Bool)
    (convert : String → String → String → ConvOutcome)
    (authHeader : Option String) (request : MarkdownRequest) : PerResult :=
  let markdownContent := request.output
  let fileName := defaultedFileName request.fileName
  if !validateMarkdownContent markdownContent then
    PerResult.err "Invalid markdown content"
      (some "Markdown content is required and must be less than 1MB") 400
  else if !validateFileName fileName then
    PerResult.err "Invalid file name"
      (some "File name must be valid and less than 255 characters") 400
  else
    match authHeader with
    | none =>
        PerResult.err "Missing or invalid authorization header"
          (some "Authorization header must be in format: Bearer <token>") 401
    | some h =>
        if !strStartsWith h "Bearer " then
          PerResult.err "Missing or invalid authorization header"
            (some "Authorization header must be in format: Bearer <token>") 401
        else
          let accessToken := tokenOf (some h)
          if !validateAccessToken accessToken then
            PerResult.err "Invalid access token format" none 401
          else
            match convert (markdownContent.getD "") accessToken fileName with
            | ConvOutcome.success st id url =>
                PerResult.ok st id url request.webhookUrl request.executionMode
            | ConvOutcome.failure msg st =>
                PerResult.err "Failed to convert markdown to Google Doc"
                  (if production then some "Failed to convert markdown to Google Doc"
                   else msg)
                  (statusOrDefault st)

/-- The parsed request body of the POST handler: a single object or an
array of objects. -/
inductive RequestBody where
  | single (r : MarkdownRequest) : RequestBody
  | array (rs : List MarkdownRequest) : RequestBody

/-- Array.isArray dispatch of src/index.ts: an array body is taken as is, a
single object becomes a one-element batch. -/
def toRequests : RequestBody → List MarkdownRequest
  | .single r => [r]
  | .array rs => rs

/-- The JSON body of the HTTP response: one result object or an array of
result objects. -/
inductive ResponseBody where
  | one (r : PerResult) : ResponseBody
  | many (rs : List PerResult) : ResponseBody
deriving DecidableEq, Repr

/-- The HTTP response the POST handler sends: a status code and a JSON
body. -/
structure HttpResponse where
  status : Nat
  body : ResponseBody
deriving DecidableEq, Repr

/-- The POST handler of src/index.ts: parse the batch, reject more than 10
requests with status 400, map every request through the per-request
processing, then dispatch — exactly one result is sent with that result's
own status field, several results are sent as a JSON array with the Express
default status 200. -/
def handlePost (production : Bool)
    (convert : String → String → String → ConvOutcome)
    (authHeader : Option String) (body : RequestBody) : HttpResponse :=
  let requests := toRequests body
  if 10 < requests.length then
    ⟨400, ResponseBody.one (PerResult.err "Too many requests in batch"
      (some "Maximum 10 requests allowed per batch") 400)⟩
  else
    let results := requests.map (processRequest production convert authHeader)
    match results with
    | [r] => ⟨r.status, ResponseBody.one r⟩
    | rs => ⟨200, ResponseBody.many rs⟩

/-! ## Concrete inputs used by witnesses and counterexamples -/

/-- A syntactically valid 100-character access token. -/
def tok100 : String := String.mk (List.replicate 100 'a')

/-- A rate-limit state in which one client has exhausted its window. -/
def limitedMap : RateLimitMap :=
  fun k => if k = "a" then some ⟨100, 10⟩ else none

/-- A rate-limit state in which one client has used one request. -/
def lowMap : RateLimitMap :=
  fun k => if k = "a" then some ⟨1, 10⟩ else none

/-- The AST of a Markdown list nested three levels deep. -/
def threeLevelList : Block :=
  Block.listBlock false
    (MdItems.item (Inlines.text "a" Inlines.nil) false
      (MdItems.item (Inlines.text "b" Inlines.nil) false
        (MdItems.item (Inlines.text "c" Inlines.nil) false MdItems.nil MdItems.nil)
        MdItems.nil)
      MdItems.nil)

/-! ## Supporting lemmas -/

theorem runsText_append (xs ys : List RunEntry) :
    runsText (xs ++ ys) = runsText xs ++ runsText ys := by
  induction xs with
  | nil => simp [runsText]
  | cons r rs ih => simp [runsText, ih, String.append_assoc]

theorem elementsText_append (xs ys : List DocumentElement) :
    elementsText (xs ++ ys) = elementsText xs ++ elementsText ys := by
  induction xs with
  | nil => simp [elementsText]
  | cons e es ih => simp [elementsText, ih, String.append_assoc]

theorem resolveInlines_text (inl : Inlines) :
    ∀ s : StyleSet, runsText (resolveInlines s inl) = inlinesText inl := by
  induction inl with
  | nil => intro s; rfl
  | text t rest ih =>
      intro s; simp [resolveInlines, inlinesText, runsText, runEntryText, ih]
  | strong inner rest ih1 ih2 =>
      intro s
      simp [resolveInlines, inlinesText, runsText_append, ih1, ih2]
  | em inner rest ih1 ih2 =>
      intro s
      simp [resolveInlines, inlinesText, runsText_append, ih1, ih2]
  | codespan t rest ih =>
      intro s; simp [resolveInlines, inlinesText, runsText, runEntryText, ih]
  | link url inner rest ih1 ih2 =>
      intro s
      simp [resolveInlines, inlinesText, runsText_append, ih1, ih2]
  | br rest ih =>
      intro s; simp [resolveInlines, inlinesText, runsText, runEntryText, ih]
  | unknownInline t rest ih =>
      intro s; simp [resolveInlines, inlinesText, runsText, runEntryText, ih]

theorem buildItems_text (items : MdItems) :
    ∀ (ordered : Bool) (depth : Nat),
      elementsText (buildItems ordered depth items) = itemsText items := by
  induction items with
  | nil => intro o d; rfl
  | item content subOrd sub rest ih1 ih2 =>
      intro o d
      simp [buildItems, itemsText, elementsText, elementText, elementsText_append,
        resolveInlines_text, ih1, ih2, String.append_assoc]

theorem build_text (bs : List Block) : elementsText (build bs) = blocksText bs := by
  induction bs with
  | nil => rfl
  | cons b rest ih =>
      cases b with
      | heading lv inl =>
          simp [build, blocksText, elementsText, elementText, resolveInlines_text, ih]
      | para inl =>
          simp [build, blocksText, elementsText, elementText, resolveInlines_text, ih]
      | codeBlock lang t =>
          simp [build, blocksText, elementsText, elementText, ih]
      | listBlock ord items =>
          simp [build, blocksText, elementsText_append, buildItems_text, ih]
      | unknownBlock t =>
          simp [build, blocksText, elementsText, elementText, runsText, runEntryText, ih]

/-! ## Claim theorems -/

/-- C2: For every well-formed Markdown input, the conversion pipeline
never raises an error: building the DocumentElement sequence is a total
function, any unrecognized block or inline node kind is degraded to a
plain-text Run carrying its text (never silently dropped), and the visible
text of the built model equals the visible text of the AST — no content
loss. -/
theorem C2_pipeline_no_content_loss :
    (∀ bs : List Block, elementsText (build bs) = blocksText bs) ∧
    (∀ (t : String) (rest : List Block),
      build (Block.unknownBlock t :: rest)
        = DocumentElement.paragraph [RunEntry.run t noStyle] :: build rest) ∧
    (∀ (s : StyleSet) (t : String) (rest : Inlines),
      resolveInlines s (Inlines.unknownInline t rest)
        = RunEntry.run t s :: resolveInlines s rest) :=
  ⟨build_text, fun _ _ => rfl, fun _ _ _ => rfl⟩

/-- C4: nested emphasis composes style sets by union: a strong node holding
an emphasis node yields a single Run with both bold and italic set, and a
strong node holding text, emphasised text, text yields exactly three Runs
in order, the middle one bold plus italic, the outer ones bold-only. -/
theorem C4_style_union :
    build [Block.para (Inlines.strong
        (Inlines.em (Inlines.text "text" Inlines.nil) Inlines.nil) Inlines.nil)]
      = [DocumentElement.paragraph
          [RunEntry.run "text" { bold := true, italic := true }]] ∧
    build [Block.para (Inlines.strong
        (Inlines.text "a"
          (Inlines.em (Inlines.text "b" Inlines.nil) (Inlines.text "c" Inlines.nil)))
        Inlines.nil)]
      = [DocumentElement.paragraph
          [RunEntry.run "a" { bold := true },
           RunEntry.run "b" { bold := true, italic := true },
           RunEntry.run "c" { bold := true }]] :=
  ⟨rfl, rfl⟩

/-- C6: the Document Model Builder and the Style Resolver are deterministic
pure functions of their input: equal inputs always produce identical
outputs, with no hidden state. -/
theorem C6_builder_deterministic :
    (∀ bs1 bs2 : List Block, bs1 = bs2 → build bs1 = build bs2) ∧
    (∀ (s : StyleSet) (l1 l2 : Inlines), l1 = l2 →
      resolveInlines s l1 = resolveInlines s l2) :=
  ⟨fun _ _ h => h ▸ rfl, fun _ _ _ h => h ▸ rfl⟩

/-- Witness for C6 at a concrete input. -/
theorem C6_witness :
    build [threeLevelList] = build [threeLevelList] :=
  C6_builder_deterministic.1 [threeLevelList] [threeLevelList] rfl

theorem listDepths_append (xs ys : List DocumentElement) :
    listDepths (xs ++ ys) = listDepths xs ++ listDepths ys := by
  induction xs with
  | nil => rfl
  | cons e es ih => cases e <;> simp [listDepths, ih]

theorem buildItems_depths (items : MdItems) :
    ∀ (ordered : Bool) (depth : Nat),
      List.Chain' (fun a b => b ≤ a + 1) (listDepths (buildItems ordered depth items)) ∧
      (∀ x ∈ listDepths (buildItems ordered depth items), depth ≤ x) ∧
      (∀ x ∈ (listDepths (buildItems ordered depth items)).head?, x = depth) := by
  induction items with
  | nil =>
      intro o d
      refine ⟨?_, ?_, ?_⟩ <;> simp [buildItems, listDepths]
  | item content subOrd sub rest ih1 ih2 =>
      intro o d
      obtain ⟨hc1, hm1, hh1⟩ := ih1 subOrd (d + 1)
      obtain ⟨hc2, hm2, hh2⟩ := ih2 o d
      have hlist : listDepths (buildItems o d (MdItems.item content subOrd sub rest))
          = d :: (listDepths (buildItems subOrd (d + 1) sub)
              ++ listDepths (buildItems o d rest)) := by
        simp [buildItems, listDepths, listDepths_append]
      rw [hlist]
      refine ⟨?_, ?_, ?_⟩
      · refine List.chain'_cons'.mpr ⟨?_, ?_⟩
        · intro y hy
          rcases hA : listDepths (buildItems subOrd (d + 1) sub) with _ | ⟨a, as⟩
          · rw [hA] at hy
            simp only [List.nil_append] at hy
            have := hh2 y hy
            omega
          · rw [hA] at hy
            simp only [List.cons_append, List.head?_cons, Option.mem_some_iff] at hy
            have ha : a = d + 1 := by
              apply hh1
              rw [hA]
              simp
            omega
        · refine List.chain'_append.mpr ⟨hc1, hc2, ?_⟩
          intro x hx y hy
          have hxm : d + 1 ≤ x := hm1 x (List.mem_of_mem_getLast? hx)
          have hym : y = d := hh2 y hy
          omega
      · intro x hx
        rcases List.mem_cons.mp hx with h | h
        · omega
        · rcases List.mem_append.mp h with h' | h'
          · have := hm1 x h'
            omega
          · exact hm2 x h'
      · intro x hx
        simp only [List.head?_cons, Option.mem_some_iff] at hx
        omega

theorem build_depths_head (bs : List Block) :
    ∀ x ∈ (listDepths (build bs)).head?, x = 0 := by
  induction bs with
  | nil => simp [build, listDepths]
  | cons b rest ih =>
      cases b with
      | heading lv inl => simpa [build, listDepths] using ih
      | para inl => simpa [build, listDepths] using ih
      | codeBlock lang t => simpa [build, listDepths] using ih
      | unknownBlock t => simpa [build, listDepths] using ih
      | listBlock ord items =>
          intro x hx
          have hb : build (Block.listBlock ord items :: rest)
              = buildItems ord 0 items ++ build rest := rfl
          rw [hb, listDepths_append] at hx
          rcases hA : listDepths (buildItems ord 0 items) with _ | ⟨a, as⟩
          · rw [hA] at hx
            simp only [List.nil_append] at hx
            exact ih x hx
          · rw [hA] at hx
            simp only [List.cons_append, List.head?_cons, Option.mem_some_iff] at hx
            have ha : a = 0 := by
              apply (buildItems_depths items ord 0).2.2
              rw [hA]
              simp
            omega

theorem build_depths_chain (bs : List Block) :
    List.Chain' (fun a b => b ≤ a + 1) (listDepths (build bs)) := by
  induction bs with
  | nil => simp [build, listDepths]
  | cons b rest ih =>
      cases b with
      | heading lv inl => simpa [build, listDepths] using ih
      | para inl => simpa [build, listDepths] using ih
      | codeBlock lang t => simpa [build, listDepths] using ih
      | unknownBlock t => simpa [build, listDepths] using ih
      | listBlock ord items =>
          have hb : build (Block.listBlock ord items :: rest)
              = buildItems ord 0 items ++ build rest := rfl
          rw [hb, listDepths_append]
          refine List.chain'_append.mpr ⟨(buildItems_depths items ord 0).1, ih, ?_⟩
          intro x hx y hy
          have := build_depths_head rest y hy
          omega

/-- C5: the Document Model Builder emits ListItem elements whose depths are
always at least 0 and never skip a depth value going deeper — along the
flat sequence in document order, the depth of each next list item exceeds
the previous one by at most 1, so every nesting transition downward is
exactly plus 1; a list nested three levels deep yields depths exactly 0, 1,
2 in document order. -/
theorem C5_list_depths :
    (∀ bs : List Block,
      List.Chain' (fun a b => b ≤ a + 1) (listDepths (build bs)) ∧
      ∀ d ∈ listDepths (build bs), 0 ≤ d) ∧
    listDepths (build [threeLevelList]) = [0, 1, 2] :=
  ⟨fun bs => ⟨build_depths_chain bs, fun d _ => Nat.zero_le d⟩, rfl⟩

/-- Witness for C5 at a concrete input. -/
theorem C5_witness :
    List.Chain' (fun a b => b ≤ a + 1) (listDepths (build [threeLevelList])) ∧
    (0 : Nat) ≤ 0 :=
  ⟨(C5_list_depths.1 [threeLevelList]).1,
   (C5_list_depths.1 [threeLevelList]).2 0 (by decide)⟩

theorem runsText_length (rs : List RunEntry) : (runsText rs).length = runsLen rs := by
  induction rs with
  | nil => rfl
  | cons r rest ih =>
      cases r with
      | run t s => simp [runsText, runsLen, runEntryText, String.length_append, ih]
      | lineBreak =>
          have h1 : ("\n" : String).length = 1 := rfl
          simp [runsText, runsLen, runEntryText, String.length_append, ih, h1]

theorem insertedLen_append (xs ys : List RemoteOperation) :
    insertedLen (xs ++ ys) = insertedLen xs + insertedLen ys := by
  induction xs with
  | nil => simp [insertedLen]
  | cons op rest ih =>
      cases op with
      | insertText i t => simp [insertedLen, ih]; omega
      | updateStyle a b s => simp [insertedLen, ih]
      | insertParagraphBullet a b d o => simp [insertedLen, ih]

theorem insertedLen_styleOps (rs : List RunEntry) :
    ∀ base off, insertedLen (styleOps base off rs) = 0 := by
  induction rs with
  | nil => intro b o; rfl
  | cons r rest ih =>
      intro b o
      cases r with
      | run t s =>
          by_cases ht : t.length = 0 <;> simp [styleOps, ht, insertedLen, ih]
      | lineBreak => simp [styleOps, insertedLen, ih]

theorem insertedLen_bulletOps (cursor len : Nat) (e : DocumentElement) :
    insertedLen (bulletOps cursor len e) = 0 := by
  cases e <;> simp [bulletOps, insertedLen]

theorem insertedLen_emitElem (L : Nat) (e : DocumentElement) :
    insertedLen (emitElem L e) = (elementFullText e).length := by
  by_cases h : (elementFullText e).length = 0
  · simp [emitElem, h, insertedLen]
  · simp [emitElem, h, insertedLen, insertedLen_append, insertedLen_styleOps,
      insertedLen_bulletOps]

theorem opsWithin_append {L : Nat} {xs ys : List RemoteOperation}
    (hx : OpsWithin L xs) (hy : OpsWithin (L + insertedLen xs) ys) :
    OpsWithin L (xs ++ ys) := by
  induction xs generalizing L with
  | nil => simpa [insertedLen] using hy
  | cons op rest ih =>
      cases op with
      | insertText i t =>
          obtain ⟨h1, h2, h3⟩ := hx
          refine ⟨h1, h2, ih h3 ?_⟩
          have : L + insertedLen (RemoteOperation.insertText i t :: rest)
              = L + t.length + insertedLen rest := by
            simp [insertedLen]
            omega
          rw [this] at hy
          exact hy
      | updateStyle a b s =>
          obtain ⟨h1, h2, h3⟩ := hx
          exact ⟨h1, h2, ih h3 (by simpa [insertedLen] using hy)⟩
      | insertParagraphBullet a b d o =>
          obtain ⟨h1, h2, h3⟩ := hx
          exact ⟨h1, h2, ih h3 (by simpa [insertedLen] using hy)⟩

theorem opsWithin_styleOps (rs : List RunEntry) :
    ∀ base off L, base + off + runsLen rs ≤ L → OpsWithin L (styleOps base off rs) := by
  induction rs with
  | nil => intro b o L h; trivial
  | cons r rest ih =>
      intro b o L h
      cases r with
      | run t s =>
          simp only [runsLen] at h
          by_cases ht : t.length = 0
          · simp only [styleOps, if_pos ht]
            exact ih b (o + t.length) L (by omega)
          · simp only [styleOps, if_neg ht]
            refine ⟨by omega, by omega, ih b (o + t.length) L (by omega)⟩
      | lineBreak =>
          simp only [runsLen] at h
          simp only [styleOps]
          exact ih b (o + 1) L (by omega)

theorem opsWithin_bulletOps (cursor len L : Nat) (e : DocumentElement)
    (h : cursor + len ≤ L) : OpsWithin L (bulletOps cursor len e) := by
  cases e with
  | listItem d o rs => exact ⟨by omega, by omega, trivial⟩
  | heading lv rs => trivial
  | paragraph rs => trivial
  | codeBlock lang t => trivial
  | lineBreak => trivial

theorem opsWithin_emitElem (L : Nat) (e : DocumentElement) :
    OpsWithin L (emitElem L e) := by
  by_cases h : (elementFullText e).length = 0
  · simp [emitElem, h, OpsWithin]
  · simp only [emitElem, h, if_neg h]
    refine ⟨rfl, Nat.pos_of_ne_zero h, ?_⟩
    apply opsWithin_append
    · apply opsWithin_styleOps
      have : runsLen (elemRuns e) = (elementFullText e).length := by
        rw [elementFullText, runsText_length]
      omega
    · rw [insertedLen_styleOps]
      apply opsWithin_bulletOps
      omega

theorem opsWithin_emitFrom (es : List DocumentElement) :
    ∀ L, OpsWithin L (emitFrom L es) := by
  induction es with
  | nil => intro L; trivial
  | cons e rest ih =>
      intro L
      simp only [emitFrom]
      apply opsWithin_append (opsWithin_emitElem L e)
      rw [insertedLen_emitElem]
      exact ih (L + (elementFullText e).length)

theorem opsWithin_insertIndices (ops : List RemoteOperation) :
    ∀ L, OpsWithin L ops →
      List.Chain' (fun a b => a < b) (insertIndices ops) ∧
      ∀ x ∈ (insertIndices ops).head?, L ≤ x := by
  induction ops with
  | nil =>
      intro L _
      constructor
      · simp [insertIndices]
      · simp [insertIndices]
  | cons op rest ih =>
      intro L h
      cases op with
      | insertText i t =>
          obtain ⟨h1, h2, h3⟩ := h
          obtain ⟨hc, hhd⟩ := ih (L + t.length) h3
          constructor
          · simp only [insertIndices]
            refine List.chain'_cons'.mpr ⟨?_, hc⟩
            intro y hy
            have := hhd y hy
            omega
          · intro x hx
            simp only [insertIndices, List.head?_cons, Option.mem_some_iff] at hx
            omega
      | updateStyle a b s =>
          obtain ⟨_, _, h3⟩ := h
          simpa [insertIndices] using ih L h3
      | insertParagraphBullet a b d o =>
          obtain ⟨_, _, h3⟩ := h
          simpa [insertIndices] using ih L h3

/-- C1: for every DocumentElement sequence, in the emitted RemoteOperation
sequence every operation's addressed index or range lies within 0 and the
cumulative inserted length so far (each InsertText is placed exactly at the
cursor advanced by the lengths of all previously inserted texts, and every
styled range ends within the inserted content), the InsertText indices
strictly increase in application order, and in particular inserting
Hello (5 characters) and styling range 0 to 5 bold, then inserting
another paragraph, places the second InsertText at index 5, not index 0. -/
theorem C1_emitter_cursor_math :
    (∀ es : List DocumentElement, OpsWithin 0 (emit es)) ∧
    (∀ es : List DocumentElement,
      List.Chain' (fun a b => a < b) (insertIndices (emit es))) ∧
    emit [DocumentElement.paragraph [RunEntry.run "Hello" { bold := true }],
          DocumentElement.paragraph [RunEntry.run " World" noStyle]]
      = [RemoteOperation.insertText 0 "Hello",
         RemoteOperation.updateStyle 0 5 { bold := true },
         RemoteOperation.insertText 5 " World",
         RemoteOperation.updateStyle 5 11 noStyle] :=
  ⟨fun es => opsWithin_emitFrom es 0,
   fun es => (opsWithin_insertIndices (emit es) 0 (opsWithin_emitFrom es 0)).1,
   by decide⟩

/-- C7: the content-size ceiling is enforced by the caller before the core
is invoked: validateMarkdownContent accepts exactly the non-empty strings
of at most 1,000,000 characters; a request whose content fails this check
is answered with the status-400 invalid-markdown error result, and the
result does not depend on the conversion function at all — the core
conversion is never called for it. -/
theorem C7_size_ceiling (production : Bool)
    (convert : String → String → String → ConvOutcome)
    (auth : Option String) (req : MarkdownRequest)
    (hbad : validateMarkdownContent req.output = false) :
    processRequest production convert auth req
        = PerResult.err "Invalid markdown content"
            (some "Markdown content is required and must be less than 1MB") 400 ∧
    (∀ convert2 : String → String → String → ConvOutcome,
      processRequest production convert2 auth req
        = processRequest production convert auth req) ∧
    (∀ c : String, validateMarkdownContent (some c) = true ↔ c ≠ "" ∧ c.length ≤ 1000000) := by
  have hmain : ∀ cv : String → String → String → ConvOutcome,
      processRequest production cv auth req
        = PerResult.err "Invalid markdown content"
            (some "Markdown content is required and must be less than 1MB") 400 := by
    intro cv
    simp [processRequest, hbad]
  refine ⟨hmain convert, fun cv2 => by rw [hmain cv2, hmain convert], ?_⟩
  intro c
  constructor
  · intro h
    by_cases hc : c = ""
    · simp [validateMarkdownContent, hc] at h
    · by_cases hl : 1000000 < c.length
      · simp [validateMarkdownContent, hc, hl] at h
      · exact ⟨hc, by omega⟩
  · intro h
    obtain ⟨hc, hl⟩ := h
    have hnl : ¬ 1000000 < c.length := by omega
    simp [validateMarkdownContent, hc, hnl]

/-- Witness for C7 at a concrete input. -/
theorem C7_witness :
    processRequest false (fun _ _ _ => ConvOutcome.failure none none) none
        ⟨none, none, none, none⟩
      = PerResult.err "Invalid markdown content"
          (some "Markdown content is required and must be less than 1MB") 400 :=
  (C7_size_ceiling false (fun _ _ _ => ConvOutcome.failure none none) none
    ⟨none, none, none, none⟩ (by decide)).1

theorem runRateLimit_bound (ts : List Nat) :
    ∀ (m : RateLimitMap) (ip : String) (c r : Nat),
      m ip = some ⟨c, r⟩ → (∀ t ∈ ts, t ≤ r) →
      countForwards (runRateLimit m ip ts) + min c 100 ≤ 100 := by
  induction ts with
  | nil =>
      intro m ip c r hm hts
      simp [runRateLimit, countForwards]
  | cons t ts ih =>
      intro m ip c r hm hts
      have htr : t ≤ r := hts t (List.mem_cons_self t ts)
      have hnr : ¬ r < t := by omega
      by_cases hc : 100 ≤ c
      · have hstep : rateLimitStep m ip t = (RLOutcome.reject429, m) := by
          simp [rateLimitStep, hm, hnr, RATE_LIMIT_MAX_REQUESTS, hc]
        have := ih m ip c r hm (fun x hx => hts x (List.mem_cons_of_mem t hx))
        simp [runRateLimit, hstep, countForwards, RLOutcome.isForward]
        omega
      · have hstep : rateLimitStep m ip t
            = (RLOutcome.forward, mapSet m ip ⟨c + 1, r⟩) := by
          simp [rateLimitStep, hm, hnr, RATE_LIMIT_MAX_REQUESTS]
          omega
        have hm2 : mapSet m ip ⟨c + 1, r⟩ ip = some ⟨c + 1, r⟩ := by
          simp [mapSet]
        have := ih (mapSet m ip ⟨c + 1, r⟩) ip (c + 1) r hm2
          (fun x hx => hts x (List.mem_cons_of_mem t hx))
        simp [runRateLimit, hstep, countForwards, RLOutcome.isForward]
        omega

/-- C8: per client IP the rateLimit middleware forwards at most 100
requests per 15-minute window: starting from an empty map, any request
trace whose times stay within the window opened by the first request has at
most 100 forwards; inside the window a counter at the cap means every
further request is rejected with 429 and the handler is not invoked (map
unchanged); once the reset time has passed the counter restarts at 1; below
the cap the counter advances by exactly one per forwarded request. -/
theorem C8_rate_limit :
    (∀ (ip : String) (now0 : Nat) (ts : List Nat),
      (∀ t ∈ ts, t ≤ now0 + RATE_LIMIT_WINDOW) →
      countForwards (runRateLimit (fun _ => none) ip (now0 :: ts))
        ≤ RATE_LIMIT_MAX_REQUESTS) ∧
    (∀ (m : RateLimitMap) (ip : String) (now : Nat) (d : RateData),
      m ip = some d → ¬ d.resetTime < now → RATE_LIMIT_MAX_REQUESTS ≤ d.count →
      rateLimitStep m ip now = (RLOutcome.reject429, m)) ∧
    (∀ (m : RateLimitMap) (ip : String) (now : Nat) (d : RateData),
      m ip = some d → d.resetTime < now →
      rateLimitStep m ip now
        = (RLOutcome.forward, mapSet m ip ⟨1, now + RATE_LIMIT_WINDOW⟩)) ∧
    (∀ (m : RateLimitMap) (ip : String) (now : Nat) (d : RateData),
      m ip = some d → ¬ d.resetTime < now → d.count < RATE_LIMIT_MAX_REQUESTS →
      rateLimitStep m ip now
        = (RLOutcome.forward, mapSet m ip ⟨d.count + 1, d.resetTime⟩)) := by
  refine ⟨?_, ?_, ?_, ?_⟩
  · intro ip now0 ts hts
    have hstep : rateLimitStep (fun _ => none) ip now0
        = (RLOutcome.forward, mapSet (fun _ => none) ip ⟨1, now0 + RATE_LIMIT_WINDOW⟩) := by
      simp [rateLimitStep]
    have hm1 : mapSet (fun _ => none) ip ⟨1, now0 + RATE_LIMIT_WINDOW⟩ ip
        = some ⟨1, now0 + RATE_LIMIT_WINDOW⟩ := by
      simp [mapSet]
    have hb := runRateLimit_bound ts
      (mapSet (fun _ => none) ip ⟨1, now0 + RATE_LIMIT_WINDOW⟩) ip 1
      (now0 + RATE_LIMIT_WINDOW) hm1 hts
    simp [runRateLimit, hstep, countForwards, RLOutcome.isForward,
      RATE_LIMIT_MAX_REQUESTS]
    omega
  · intro m ip now d hm hin hcap
    simp [rateLimitStep, hm, hin, hcap]
  · intro m ip now d hm hout
    simp [rateLimitStep, hm, hout]
  · intro m ip now d hm hin hlt
    have hnc : ¬ RATE_LIMIT_MAX_REQUESTS ≤ d.count := by omega
    simp [rateLimitStep, hm, hin, hnc]

/-- Witness for C8 at concrete inputs. -/
theorem C8_witness :
    countForwards (runRateLimit (fun _ => none) "a" [0, 1, 2])
        ≤ RATE_LIMIT_MAX_REQUESTS ∧
    rateLimitStep limitedMap "a" 5 = (RLOutcome.reject429, limitedMap) ∧
    rateLimitStep limitedMap "a" 11
      = (RLOutcome.forward, mapSet limitedMap "a" ⟨1, 11 + RATE_LIMIT_WINDOW⟩) ∧
    rateLimitStep lowMap "a" 5 = (RLOutcome.forward, mapSet lowMap "a" ⟨2, 10⟩) :=
  ⟨C8_rate_limit.1 "a" 0 [1, 2] (by decide),
   C8_rate_limit.2.1 limitedMap "a" 5 ⟨100, 10⟩ (by decide) (by decide) (by decide),
   C8_rate_limit.2.2.1 limitedMap "a" 11 ⟨100, 10⟩ (by decide) (by decide),
   C8_rate_limit.2.2.2 lowMap "a" 5 ⟨1, 10⟩ (by decide) (by decide) (by decide)⟩

/-- C3 (amended): when the conversion collaborator fails, the handler never
swallows the failure — it always returns an error result whose status code
is the remote error's status (500 when absent or zero, so 4xx input
problems stay distinguishable from 5xx transient failures), and whose
details field carries the remote error message outside production; in
production the message is replaced by a generic string rather than
propagated unchanged. -/
theorem C3_conversion_failure_result (production : Bool) (msg : Option String)
    (st : Option Nat) (h : String) (req : MarkdownRequest)
    (hmd : validateMarkdownContent req.output = true)
    (hfn : validateFileName (defaultedFileName req.fileName) = true)
    (hbr : strStartsWith h "Bearer " = true)
    (htk : validateAccessToken (tokenOf (some h)) = true) :
    processRequest production (fun _ _ _ => ConvOutcome.failure msg st) (some h) req
      = PerResult.err "Failed to convert markdown to Google Doc"
          (if production then some "Failed to convert markdown to Google Doc" else msg)
          (statusOrDefault st) := by
  simp [processRequest, hmd, hfn, hbr, htk]

/-- Counterexample to C3 as stated: in production mode a remote failure
with message backend unavailable is answered with a generic details string
— the remote error payload is replaced, not propagated unchanged (the
status code 503 survives). -/
theorem C3_counterexample :
    processRequest true
        (fun _ _ _ => ConvOutcome.failure (some "backend unavailable") (some 503))
        (some ("Bearer " ++ tok100)) ⟨some "# Hi", none, none, none⟩
      = PerResult.err "Failed to convert markdown to Google Doc"
          (some "Failed to convert markdown to Google Doc") 503 ∧
    processRequest true
        (fun _ _ _ => ConvOutcome.failure (some "backend unavailable") (some 503))
        (some ("Bearer " ++ tok100)) ⟨some "# Hi", none, none, none⟩
      ≠ PerResult.err "Failed to convert markdown to Google Doc"
          (some "backend unavailable") 503 :=
  ⟨by decide, by decide⟩

/-- Witness for C3 at a concrete input. -/
theorem C3_witness :
    processRequest false
        (fun _ _ _ => ConvOutcome.failure (some "socket hang up") none)
        (some ("Bearer " ++ tok100)) ⟨some "hello", none, none, none⟩
      = PerResult.err "Failed to convert markdown to Google Doc"
          (some "socket hang up") 500 :=
  C3_conversion_failure_result false (some "socket hang up") none
    ("Bearer " ++ tok100) ⟨some "hello", none, none, none⟩
    (by decide) (by decide) (by decide) (by decide)

/-- C9 (amended): a request whose extracted Bearer token fails the format
validation never reaches the conversion — the per-request result is always
an error and does not depend on the conversion function; when the earlier
markdown-content, file-name and header-shape validations pass, that error
is exactly the status-401 invalid-access-token-format response. -/
theorem C9_invalid_token_rejected (production : Bool)
    (convert convert2 : String → String → String → ConvOutcome)
    (h : String) (req : MarkdownRequest)
    (htok : validateAccessToken (tokenOf (some h)) = false) :
    (validateMarkdownContent req.output = true →
      validateFileName (defaultedFileName req.fileName) = true →
      strStartsWith h "Bearer " = true →
      processRequest production convert (some h) req
        = PerResult.err "Invalid access token format" none 401) ∧
    (processRequest production convert (some h) req).isErr = true ∧
    processRequest production convert (some h) req
      = processRequest production convert2 (some h) req := by
  refine ⟨?_, ?_, ?_⟩
  · intro hmd hfn hbr
    simp [processRequest, hmd, hfn, hbr, htok]
  · cases hmd : validateMarkdownContent req.output with
    | false => simp [processRequest, hmd, PerResult.isErr]
    | true =>
        cases hfn : validateFileName (defaultedFileName req.fileName) with
        | false => simp [processRequest, hmd, hfn, PerResult.isErr]
        | true =>
            cases hbr : strStartsWith h "Bearer " with
            | false => simp [processRequest, hmd, hfn, hbr, PerResult.isErr]
            | true => simp [processRequest, hmd, hfn, hbr, htok, PerResult.isErr]
  · cases hmd : validateMarkdownContent req.output with
    | false => simp [processRequest, hmd]
    | true =>
        cases hfn : validateFileName (defaultedFileName req.fileName) with
        | false => simp [processRequest, hmd, hfn]
        | true =>
            cases hbr : strStartsWith h "Bearer " with
            | false => simp [processRequest, hmd, hfn, hbr]
            | true => simp [processRequest, hmd, hfn, hbr, htok]

/-- Counterexample to C9 as stated: a request whose Bearer token is too
short (token short, 5 characters) but whose markdown content is also
missing is answered with the status-400 invalid-markdown error, not the
status-401 invalid-access-token-format error the claim requires for every
request with a malformed token. -/
theorem C9_counterexample :
    validateAccessToken (tokenOf (some "Bearer short")) = false ∧
    processRequest false (fun _ _ _ => ConvOutcome.failure none none)
        (some "Bearer short") ⟨none, none, none, none⟩
      = PerResult.err "Invalid markdown content"
          (some "Markdown content is required and must be less than 1MB") 400 ∧
    processRequest false (fun _ _ _ => ConvOutcome.failure none none)
        (some "Bearer short") ⟨none, none, none, none⟩
      ≠ PerResult.err "Invalid access token format" none 401 :=
  ⟨by decide, by decide, by decide⟩

/-- Witness for C9 at a concrete input. -/
theorem C9_witness :
    processRequest false (fun _ _ _ => ConvOutcome.failure none none)
        (some "Bearer short") ⟨some "hi", none, none, none⟩
      = PerResult.err "Invalid access token format" none 401 :=
  (C9_invalid_token_rejected false (fun _ _ _ => ConvOutcome.failure none none)
      (fun _ _ _ => ConvOutcome.failure none (some 1)) "Bearer short"
      ⟨some "hi", none, none, none⟩ (by decide)).1 (by decide) (by decide) (by decide)

/-- C10: the response shape depends on the parsed batch size: one parsed
request (single object or one-element array) is answered with that single
result's own status field and that result object as the body; 2 to 10
requests are answered as a JSON array of all per-request results with the
default status 200; more than 10 requests are rejected whole with status
400 and the conversion function is never consulted. -/
theorem C10_response_dispatch (production : Bool)
    (convert : String → String → String → ConvOutcome) (auth : Option String) :
    (∀ r : MarkdownRequest,
      handlePost production convert auth (RequestBody.single r)
        = ⟨(processRequest production convert auth r).status,
           ResponseBody.one (processRequest production convert auth r)⟩ ∧
      handlePost production convert auth (RequestBody.array [r])
        = ⟨(processRequest production convert auth r).status,
           ResponseBody.one (processRequest production convert auth r)⟩) ∧
    (∀ rs : List MarkdownRequest, 2 ≤ rs.length → rs.length ≤ 10 →
      handlePost production convert auth (RequestBody.array rs)
        = ⟨200, ResponseBody.many (rs.map (processRequest production convert auth))⟩) ∧
    (∀ rs : List MarkdownRequest, 10 < rs.length →
      handlePost production convert auth (RequestBody.array rs)
        = ⟨400, ResponseBody.one (PerResult.err "Too many requests in batch"
            (some "Maximum 10 requests allowed per batch") 400)⟩ ∧
      ∀ convert2 : String → String → String → ConvOutcome,
        handlePost production convert2 auth (RequestBody.array rs)
          = handlePost production convert auth (RequestBody.array rs)) := by
  refine ⟨?_, ?_, ?_⟩
  · intro r
    exact ⟨rfl, rfl⟩
  · intro rs h2 h10
    obtain ⟨a, rs1, rfl⟩ : ∃ a rs1, rs = a :: rs1 := by
      cases rs with
      | nil => simp at h2
      | cons a rs1 => exact ⟨a, rs1, rfl⟩
    obtain ⟨b, rs2, rfl⟩ : ∃ b rs2, rs1 = b :: rs2 := by
      cases rs1 with
      | nil => simp at h2
      | cons b rs2 => exact ⟨b, rs2, rfl⟩
    have hn : ¬ 10 < (a :: b :: rs2).length := by
      simp only [List.length_cons] at h10 ⊢
      omega
    simp [handlePost, toRequests, hn]
    simp only [List.length_cons] at h10
    omega
  · intro rs hgt
    have hth : 10 < (toRequests (RequestBody.array rs)).length := by
      simpa [toRequests] using hgt
    exact ⟨by simp [handlePost, hth], fun convert2 => by simp [handlePost, hth]⟩

/-- Witness for C10 at concrete inputs. -/
theorem C10_witness :
    handlePost false (fun _ _ _ => ConvOutcome.failure none none) none
        (RequestBody.array (List.replicate 11 ⟨none, none, none, none⟩))
      = ⟨400, ResponseBody.one (PerResult.err "Too many requests in batch"
          (some "Maximum 10 requests allowed per batch") 400)⟩ ∧
    handlePost false (fun _ _ _ => ConvOutcome.failure none none) none
        (RequestBody.array [⟨none, none, none, none⟩, ⟨none, none, none, none⟩])
      = ⟨200, ResponseBody.many
          ([⟨none, none, none, none⟩, ⟨none, none, none, none⟩].map
            (processRequest false (fun _ _ _ => ConvOutcome.failure none none) none))⟩ :=
  ⟨((C10_response_dispatch false (fun _ _ _ => ConvOutcome.failure none none) none).2.2
      (List.replicate 11 ⟨none, none, none, none⟩) (by decide)).1,
   (C10_response_dispatch false (fun _ _ _ => ConvOutcome.failure none none) none).2.1
      [⟨none, none, none, none⟩, ⟨none, none, none, none⟩] (by decide) (by decide)⟩

end MdToDocs
